import Mathlib

/-!
Shallow embedding of the table-viewer core (src/state.rs, src/viewer.rs) and
verification of the specification claims about it.

Machine integers (`usize`) are modelled as `Nat`; the one place the source
relies on wrapping arithmetic (`wrapping_sub` in `move_page_up`) is modelled
explicitly with the 64-bit modulus.  Rust panics (out-of-bounds indexing,
`parse().unwrap()`) cannot occur in a pure total embedding; indexing is
modelled with `getD` defaults and parsing with a total digit fold.  Those
default branches are unreachable for the well-formed states the theorems
quantify over.
-/

namespace TV

/-- RenderingAction from src/renderer.rs. -/
inductive RenderingAction
  | moveCursor
  | rerender
  | command
  | reset
  | none
deriving DecidableEq

/-- Table cell-based coordinates, `TableCoord` from src/state.rs. -/
structure TableCoord where
  col : Nat
  row : Nat
deriving DecidableEq

/-- Character-based coordinates, `CharCoord` from src/state.rs. -/
structure CharCoord where
  x : Nat
  y : Nat
deriving DecidableEq

/-- Column formatting information, `ColFormat` from src/state.rs. -/
structure ColFormat where
  width : Nat
  index : Nat
deriving DecidableEq

/-- The viewer state, `TableState` from src/state.rs. -/
structure TableState where
  header : List String
  rows : List (List String)
  columns : List ColFormat
  terminal_size : CharCoord
  cur_pos : TableCoord
  offsets : TableCoord
  command_buffer : List Char
deriving DecidableEq

/-- One step of the width-maximisation loop in `compute_col_widths`:
fold a row into the running per-column maxima.  (The source indexes
`widths[i]` for each cell of the row; a row longer than `widths` would
panic in Rust and is excluded by the rectangularity hypotheses.) -/
def updateWidths : List Nat → List String → List Nat
  | ws, [] => ws
  | [], _ => []
  | w :: ws, v :: vs => (if v.length > w then v.length else w) :: updateWidths ws vs

/-- Column width computation, `compute_col_widths` from src/state.rs:
per-column maximum character length over all given rows, plus padding,
truncated to the window width. -/
def compute_col_widths (rows : List (List String)) (padding window_width : Nat) : List Nat :=
  match rows with
  | [] => []
  | header :: rest =>
    let widths := header.map (fun value => value.length)
    let widths := rest.foldl updateWidths widths
    widths.map (fun w =>
      let w := w + padding
      if w > window_width then w - (w - window_width) else w)

/-- The `scan` producing `ColFormat`s from widths in `TableState::new`. -/
def colsFromWidths : List Nat → Nat → List ColFormat
  | [], _ => []
  | width :: rest, acc => ⟨width, acc⟩ :: colsFromWidths rest (acc + width)

/-- Constructor `TableState::new` from src/state.rs. -/
def TableState.new (header : List String) (rows : List (List String))
    (terminal_size : CharCoord) : TableState :=
  let col_widths := compute_col_widths (header :: rows) 2 terminal_size.x
  { header := header
    rows := rows
    columns := colsFromWidths col_widths 0
    terminal_size := terminal_size
    cur_pos := ⟨0, 0⟩
    offsets := ⟨0, 0⟩
    command_buffer := [] }

/-- Total access to a column format (Rust indexes directly; all accesses in
the claims are within bounds). -/
def colD (cs : List ColFormat) (i : Nat) : ColFormat := cs.getD i ⟨0, 0⟩

/-- Total access to a cell of a row. -/
def cellD (r : List String) (col : Nat) : String := r.getD col ""

/-- Helper `TableState::x_offset`. -/
def TableState.x_offset (st : TableState) : Nat := (colD st.columns st.offsets.col).index

/-- Helper `TableState::displayable_data_rows`: terminal height minus the header line. -/
def TableState.displayable_data_rows (st : TableState) : Nat := st.terminal_size.y - 1

/-- Helper `TableState::final_row_visible`. -/
abbrev TableState.final_row_visible (st : TableState) : Prop :=
  st.rows.length ≤ st.offsets.row + st.displayable_data_rows

/-- Helper `TableState::first_row_visible`. -/
abbrev TableState.first_row_visible (st : TableState) : Prop := st.offsets.row = 0

/-- Helper `TableState::is_bottom`. -/
abbrev TableState.is_bottom (st : TableState) : Prop :=
  st.cur_pos.row = min st.displayable_data_rows st.rows.length

/-- Helper `TableState::current_column`: absolute index of the current column. -/
def TableState.current_column (st : TableState) : Nat := st.offsets.col + st.cur_pos.col

/-- Helper `TableState::current_row`: `offsets.row + cur_pos.row` as in the source
(one more than the absolute index of the current data row when the cursor is on
a data line). -/
def TableState.current_row (st : TableState) : Nat := st.offsets.row + st.cur_pos.row

/-- Operation `TableState::move_down`. -/
def TableState.move_down (st : TableState) : TableState × RenderingAction :=
  if st.is_bottom then
    if ¬ st.final_row_visible then
      ({ st with offsets := ⟨st.offsets.col, st.offsets.row + 1⟩ }, .rerender)
    else (st, .none)
  else ({ st with cur_pos := ⟨st.cur_pos.col, st.cur_pos.row + 1⟩ }, .moveCursor)

/-- Operation `TableState::move_page_down`. -/
def TableState.move_page_down (st : TableState) : TableState × RenderingAction :=
  if st.cur_pos.row = 0 then
    ({ st with cur_pos := ⟨st.cur_pos.col, 1⟩ }, .moveCursor)
  else if ¬ st.final_row_visible then
    ({ st with offsets := ⟨st.offsets.col,
        min (st.rows.length - st.displayable_data_rows)
            (st.offsets.row + (st.displayable_data_rows - 1))⟩ }, .rerender)
  else if st.cur_pos.row ≠ st.displayable_data_rows then
    ({ st with cur_pos := ⟨st.cur_pos.col, st.displayable_data_rows⟩ }, .moveCursor)
  else (st, .none)

/-- Operation `TableState::move_up`. -/
def TableState.move_up (st : TableState) : TableState × RenderingAction :=
  if st.cur_pos.row = 1 then
    if ¬ st.first_row_visible then
      ({ st with offsets := ⟨st.offsets.col, st.offsets.row - 1⟩ }, .rerender)
    else ({ st with cur_pos := ⟨st.cur_pos.col, st.cur_pos.row - 1⟩ }, .moveCursor)
  else if st.cur_pos.row ≠ 0 then
    ({ st with cur_pos := ⟨st.cur_pos.col, st.cur_pos.row - 1⟩ }, .moveCursor)
  else (st, .none)

/-- The modulus of 64-bit `usize` arithmetic. -/
def USIZE : Nat := 18446744073709551616

/-- Model of `usize::wrapping_sub` (for values below `USIZE`, which covers
every value a run of the program can produce). -/
def wrappingSub (a b : Nat) : Nat := if b ≤ a then a - b else a + USIZE - b

/-- Operation `TableState::move_page_up`. -/
def TableState.move_page_up (st : TableState) : TableState × RenderingAction :=
  if ¬ st.first_row_visible then
    let new_row := wrappingSub st.offsets.row (st.displayable_data_rows - 1)
    ({ st with offsets :=
        ⟨st.offsets.col, if new_row < st.offsets.row then new_row else 0⟩ }, .rerender)
  else if st.cur_pos.row ≠ 0 then
    ({ st with cur_pos := ⟨st.cur_pos.col, 0⟩ }, .moveCursor)
  else (st, .none)

/-- Operation `TableState::move_home`. -/
def TableState.move_home (st : TableState) : TableState × RenderingAction :=
  ({ st with offsets := ⟨st.offsets.col, 0⟩, cur_pos := ⟨st.cur_pos.col, 0⟩ }, .rerender)

/-- Operation `TableState::move_end`. -/
def TableState.move_end (st : TableState) : TableState × RenderingAction :=
  if st.rows.length ≤ st.displayable_data_rows then
    ({ st with cur_pos := ⟨st.cur_pos.col, st.rows.length⟩ }, .rerender)
  else
    ({ st with offsets := ⟨st.offsets.col, st.rows.length - st.displayable_data_rows⟩,
               cur_pos := ⟨st.cur_pos.col, st.terminal_size.y - 1⟩ }, .rerender)

/-- Operation `TableState::move_right`.  The forward scan for a fitting
column offset is the source's `for i in offsets.col..(cur_column + 1)` loop
with early `break`, i.e. the first index in that range whose window fits. -/
def TableState.move_right (st : TableState) : TableState × RenderingAction :=
  if st.current_column = st.columns.length - 1 then (st, .none)
  else
    let st1 := { st with cur_pos := ⟨st.cur_pos.col + 1, st.cur_pos.row⟩ }
    let cur_column := st1.current_column
    let new_col := colD st1.columns cur_column
    let new_col_end := new_col.index + new_col.width
    if new_col_end - (colD st1.columns st1.offsets.col).index ≤ st1.terminal_size.x then
      (st1, .moveCursor)
    else
      match (List.range' st1.offsets.col (cur_column + 1 - st1.offsets.col)).find?
          (fun i => decide (new_col_end - (colD st1.columns i).index ≤ st1.terminal_size.x)) with
      | some i =>
        ({ st1 with cur_pos := ⟨st1.cur_pos.col - (i - st1.offsets.col), st1.cur_pos.row⟩,
                    offsets := ⟨i, st1.offsets.row⟩ }, .rerender)
      | Option.none => (st1, .rerender)

/-- Operation `TableState::move_left`. -/
def TableState.move_left (st : TableState) : TableState × RenderingAction :=
  if st.cur_pos.col = 0 then
    if st.offsets.col ≠ 0 then
      ({ st with offsets := ⟨st.offsets.col - 1, st.offsets.row⟩ }, .rerender)
    else (st, .none)
  else ({ st with cur_pos := ⟨st.cur_pos.col - 1, st.cur_pos.row⟩ }, .moveCursor)

/-- Operation `TableState::move_start_of_line`. -/
def TableState.move_start_of_line (st : TableState) : TableState × RenderingAction :=
  if st.offsets.col = 0 then
    ({ st with cur_pos := ⟨0, st.cur_pos.row⟩ }, .moveCursor)
  else
    ({ st with cur_pos := ⟨0, st.cur_pos.row⟩, offsets := ⟨0, st.offsets.row⟩ }, .rerender)

/-- Operation `TableState::move_end_of_line`.  The source iterates over all
columns and takes the first whose suffix fits the window. -/
def TableState.move_end_of_line (st : TableState) : TableState × RenderingAction :=
  let last_col := colD st.columns (st.columns.length - 1)
  let complete_width := last_col.index + last_col.width
  match (List.range st.columns.length).find?
      (fun i => decide (complete_width - (colD st.columns i).index ≤ st.terminal_size.x)) with
  | some i =>
    ({ st with offsets := ⟨i, st.offsets.row⟩,
               cur_pos := ⟨st.columns.length - i - 1, st.cur_pos.row⟩ }, .rerender)
  | Option.none => (st, .rerender)

/-- Model of Rust's `str::parse::<usize>().unwrap()` used by `compare_int`:
the decimal digit fold.  On non-digit input Rust panics; the source treats
that as an unreachable invariant violation, and the claims only evaluate it
on decimal numerals. -/
def parseNat (s : String) : Nat :=
  s.data.foldl (fun acc c => acc * 10 + (c.toNat - 48)) 0

/-- Comparator `compare_int` from src/state.rs: compare the parsed values. -/
def compare_int (a b : String) : Ordering := compare (parseNat a) (parseNat b)

/-- Comparator `compare_str` from src/state.rs: Rust's `str::cmp`, i.e.
lexicographic comparison (byte order on UTF-8 coincides with code-point
order, which `List.Lex` on the character lists captures). -/
def compare_str (a b : String) : Ordering :=
  if List.Lex (· < ·) a.data b.data then .lt
  else if List.Lex (· < ·) b.data a.data then .gt
  else .eq

/-- Rust's stable `slice::sort_by` with an `Ordering`-valued comparator:
a stable sort placing `r1` before `r2` whenever the comparator does not
answer `Greater`. -/
def sortByComp (comp : List String → List String → Ordering)
    (rows : List (List String)) : List (List String) :=
  rows.mergeSort (fun r1 r2 => decide (comp r1 r2 ≠ .gt))

/-- The comparator selection in `ascending`/`descending`: numeric on the
synthetic row-number column 0, lexicographic elsewhere. -/
def rowComp (col : Nat) (r1 r2 : List String) : Ordering :=
  if col = 0 then compare_int (cellD r1 col) (cellD r2 col)
  else compare_str (cellD r1 col) (cellD r2 col)

/-- Operation `TableState::ascending`. -/
def TableState.ascending (st : TableState) (col : Nat) : TableState × RenderingAction :=
  ({ st with rows := sortByComp (fun r1 r2 => rowComp col r1 r2) st.rows }, .rerender)

/-- Operation `TableState::descending` (the comparator's arguments are swapped). -/
def TableState.descending (st : TableState) (col : Nat) : TableState × RenderingAction :=
  ({ st with rows := sortByComp (fun r1 r2 => rowComp col r2 r1) st.rows }, .rerender)

/-- Rust `str::contains` (substring containment) on the character lists. -/
def strContains : List Char → List Char → Bool
  | [], pat => pat.isEmpty
  | c :: t, pat => pat.isPrefixOf (c :: t) || strContains t pat

/-- Substring containment of `pattern` in `hay`, as `hay.contains(pattern)`. -/
def containsStr (hay pattern : String) : Bool := strContains hay.data pattern.data

/-- Method `TableState::jump_to_row`: the three-way window/cursor placement. -/
def TableState.jump_to_row (st : TableState) (row : Nat) : TableState :=
  if row < st.displayable_data_rows then
    { st with offsets := ⟨st.offsets.col, 0⟩, cur_pos := ⟨st.cur_pos.col, row + 1⟩ }
  else if st.rows.length - row < st.displayable_data_rows then
    { st with offsets := ⟨st.offsets.col, st.rows.length - st.displayable_data_rows⟩,
              cur_pos := ⟨st.cur_pos.col,
                row - (st.rows.length - st.displayable_data_rows) + 1⟩ }
  else
    { st with offsets := ⟨st.offsets.col, row⟩, cur_pos := ⟨st.cur_pos.col, 1⟩ }

/-- The row indices visited by `search`, in order:
`(cur_row..rows.len()).chain(0..cur_row)`. -/
def scanOrder (cur len : Nat) : List Nat :=
  List.range' cur (len - cur) ++ List.range cur

/-- Operation `TableState::search`: find the first matching row in scan
order and jump to it. -/
def TableState.search (st : TableState) (pattern : String) : TableState × RenderingAction :=
  let col := st.current_column
  match (scanOrder st.current_row st.rows.length).find?
      (fun row => containsStr (cellD (st.rows.getD row []) col) pattern) with
  | some row => (st.jump_to_row row, .rerender)
  | Option.none => (st, .rerender)

/-- Operation `TableState::execute_command`. -/
def TableState.execute_command (st : TableState) : TableState × RenderingAction :=
  if st.command_buffer.length > 1 ∧ st.command_buffer.getD 0 ' ' = '/' then
    st.search (String.mk (st.command_buffer.drop 1))
  else (st, .none)

/-- Input mode of the driver loop (src/viewer.rs). -/
inductive Mode
  | normal
  | command
deriving DecidableEq

/-- Key events consumed by the driver loop (the subset of `termion::event::Key`
that src/viewer.rs distinguishes; Enter arrives as `char '\n'`). -/
inductive Key
  | char (c : Char)
  | ctrl (c : Char)
  | down
  | up
  | pageDown
  | pageUp
  | home
  | endKey
  | right
  | left
  | backspace
  | esc
deriving DecidableEq

/-- One iteration of the key-dispatch loop in `TableViewer::run`
(src/viewer.rs): map a key event, given the current mode and the previous
key (for the `gg` chord), to the new mode, new state and rendering action. -/
def step (mode : Mode) (prev_key : Key) (st : TableState) (key : Key) :
    Mode × TableState × RenderingAction :=
  match mode with
  | .normal =>
    match key with
    | .char 'q' => (mode, st, .reset)
    | .ctrl 'q' => (mode, st, .reset)
    | .ctrl 'x' => (mode, st, .reset)
    | .ctrl 'c' => (mode, st, .reset)
    | .char 'a' => let r := st.ascending st.current_column; (mode, r.1, r.2)
    | .char 'd' => let r := st.descending st.current_column; (mode, r.1, r.2)
    | .char 'o' => let r := st.ascending 0; (mode, r.1, r.2)
    | .down => let r := st.move_down; (mode, r.1, r.2)
    | .char 'j' => let r := st.move_down; (mode, r.1, r.2)
    | .up => let r := st.move_up; (mode, r.1, r.2)
    | .char 'k' => let r := st.move_up; (mode, r.1, r.2)
    | .pageDown => let r := st.move_page_down; (mode, r.1, r.2)
    | .pageUp => let r := st.move_page_up; (mode, r.1, r.2)
    | .home => let r := st.move_home; (mode, r.1, r.2)
    | .char 'g' =>
      if prev_key = .char 'g' then let r := st.move_home; (mode, r.1, r.2)
      else (mode, st, .none)
    | .endKey => let r := st.move_end; (mode, r.1, r.2)
    | .char 'G' => let r := st.move_end; (mode, r.1, r.2)
    | .right => let r := st.move_right; (mode, r.1, r.2)
    | .char 'l' => let r := st.move_right; (mode, r.1, r.2)
    | .left => let r := st.move_left; (mode, r.1, r.2)
    | .char 'h' => let r := st.move_left; (mode, r.1, r.2)
    | .char '0' => let r := st.move_start_of_line; (mode, r.1, r.2)
    | .char '$' => let r := st.move_end_of_line; (mode, r.1, r.2)
    | .char '/' => (.command, { st with command_buffer := ['/'] }, .command)
    | .char ' ' => let r := st.execute_command; (mode, r.1, r.2)
    | _ => (mode, st, .none)
  | .command =>
    match key with
    | .ctrl 'q' => (mode, st, .reset)
    | .ctrl 'x' => (mode, st, .reset)
    | .ctrl 'c' => (mode, st, .reset)
    | .char '\n' =>
      if st.command_buffer.length ≤ 1 then (.normal, st, .rerender)
      else let r := st.execute_command; (.normal, r.1, r.2)
    | .char c => (.command, { st with command_buffer := st.command_buffer ++ [c] }, .command)
    | .backspace =>
      let buf := st.command_buffer.dropLast
      if buf.isEmpty then (.normal, { st with command_buffer := buf }, .rerender)
      else (.command, { st with command_buffer := buf }, .command)
    | .esc => (.normal, { st with command_buffer := [] }, .rerender)
    | _ => (mode, st, .none)

/-- The user operations of the viewport state machine, for quantifying over
operation sequences. -/
inductive Op
  | moveDown
  | moveUp
  | movePageDown
  | movePageUp
  | moveHome
  | moveEnd
  | moveLeft
  | moveRight
  | moveStartOfLine
  | moveEndOfLine
  | ascending (col : Nat)
  | descending (col : Nat)
  | search (pattern : String)
deriving DecidableEq

/-- Apply one operation to the state. -/
def applyOp (op : Op) (st : TableState) : TableState × RenderingAction :=
  match op with
  | .moveDown => st.move_down
  | .moveUp => st.move_up
  | .movePageDown => st.move_page_down
  | .movePageUp => st.move_page_up
  | .moveHome => st.move_home
  | .moveEnd => st.move_end
  | .moveLeft => st.move_left
  | .moveRight => st.move_right
  | .moveStartOfLine => st.move_start_of_line
  | .moveEndOfLine => st.move_end_of_line
  | .ascending col => st.ascending col
  | .descending col => st.descending col
  | .search pattern => st.search pattern

/-- Apply a sequence of operations, discarding the rendering actions. -/
def applyOps (ops : List Op) (st : TableState) : TableState :=
  ops.foldl (fun s op => (applyOp op s).1) st

/-- Decimal digit character (for digit values below 10). -/
def digitChar (d : Nat) : Char := Char.ofNat (48 + d)

/-- Decimal numeral digits of `n`, fuel-based so the recursion is structural
(fuel `n + 1` always suffices). -/
def toDecimalAux : Nat → Nat → List Char
  | 0, _ => []
  | fuel + 1, n =>
    if n < 10 then [digitChar n]
    else toDecimalAux fuel (n / 10) ++ [digitChar (n % 10)]

/-- The decimal numeral of `n` as a string (used to state that the synthetic
row-number column holds the numerals "1".."N"). -/
def decimalStr (n : Nat) : String := ⟨toDecimalAux (n + 1) n⟩

/-- Inductive invariant of the viewport state machine: a terminal at least
two characters tall, at least one column, at least one full window of data
rows, and the viewport/cursor bounds of the specification. -/
def StateInv (st : TableState) : Prop :=
  2 ≤ st.terminal_size.y ∧
  1 ≤ st.columns.length ∧
  st.displayable_data_rows ≤ st.rows.length ∧
  st.offsets.row ≤ st.rows.length - st.displayable_data_rows ∧
  st.cur_pos.row ≤ st.displayable_data_rows ∧
  st.offsets.col < st.columns.length ∧
  st.offsets.col + st.cur_pos.col < st.columns.length

/-! ## General helper lemmas -/

lemma applyOp_static (op : Op) (st : TableState) :
    (applyOp op st).1.header = st.header ∧ (applyOp op st).1.columns = st.columns ∧
    (applyOp op st).1.terminal_size = st.terminal_size := by
  cases op <;>
    simp only [applyOp, TableState.move_down, TableState.move_up, TableState.move_page_down,
      TableState.move_page_up, TableState.move_home, TableState.move_end, TableState.move_left,
      TableState.move_right, TableState.move_start_of_line, TableState.move_end_of_line,
      TableState.ascending, TableState.descending, TableState.search, TableState.jump_to_row] <;>
    (repeat' split) <;> simp

lemma applyOp_rows_perm (op : Op) (st : TableState) : (applyOp op st).1.rows.Perm st.rows := by
  cases op <;>
    simp only [applyOp, TableState.move_down, TableState.move_up, TableState.move_page_down,
      TableState.move_page_up, TableState.move_home, TableState.move_end, TableState.move_left,
      TableState.move_right, TableState.move_start_of_line, TableState.move_end_of_line,
      TableState.ascending, TableState.descending, TableState.search, TableState.jump_to_row,
      sortByComp] <;>
    (repeat' split) <;> simp [List.mergeSort_perm]

lemma find?_range'_eq_some {s n r : Nat} {p : Nat → Bool} :
    (List.range' s n).find? p = some r ↔
      (s ≤ r ∧ r < s + n ∧ p r = true ∧ ∀ j, s ≤ j → j < r → p j = false) := by
  induction n generalizing s with
  | zero => simp [List.range']; omega
  | succ n ih =>
    rw [List.range'_succ, List.find?_cons]
    rcases hps : p s with _ | _
    · simp only [hps]
      rw [ih]
      constructor
      · rintro ⟨h1, h2, h3, h4⟩
        refine ⟨by omega, by omega, h3, fun j hj1 hj2 => ?_⟩
        rcases Nat.eq_or_lt_of_le hj1 with rfl | hlt
        · exact hps
        · exact h4 j hlt hj2
      · rintro ⟨h1, h2, h3, h4⟩
        have hsr : s ≠ r := by rintro rfl; rw [hps] at h3; cases h3
        exact ⟨by omega, by omega, h3, fun j hj1 hj2 => h4 j (by omega) hj2⟩
    · simp only [hps]
      constructor
      · rintro h
        injection h with h
        subst h
        exact ⟨Nat.le_refl s, by omega, hps, fun j h1 h2 => by omega⟩
      · rintro ⟨h1, h2, h3, h4⟩
        rcases Nat.eq_or_lt_of_le h1 with rfl | hlt
        · rfl
        · rw [h4 s (Nat.le_refl s) hlt] at hps; cases hps

lemma find?_range_eq_some {n r : Nat} {p : Nat → Bool} :
    (List.range n).find? p = some r ↔
      (r < n ∧ p r = true ∧ ∀ j, j < r → p j = false) := by
  rw [List.range_eq_range', find?_range'_eq_some]
  constructor
  · rintro ⟨_, h2, h3, h4⟩
    exact ⟨by omega, h3, fun j hj => h4 j (Nat.zero_le j) hj⟩
  · rintro ⟨h1, h2, h3⟩
    exact ⟨Nat.zero_le r, by omega, h2, fun j _ hj => h3 j hj⟩

lemma mem_scanOrder_lt {cur len x : Nat} (hcur : cur ≤ len) (hx : x ∈ scanOrder cur len) :
    x < len := by
  rcases List.mem_append.mp hx with h | h
  · obtain ⟨i, hi, rfl⟩ := List.mem_range'.mp h
    omega
  · have := List.mem_range.mp h
    omega

lemma updateWidths_length (ws : List Nat) (row : List String) :
    (updateWidths ws row).length = ws.length := by
  induction ws generalizing row with
  | nil => cases row <;> rfl
  | cons w ws ih =>
    cases row with
    | nil => rfl
    | cons v vs => simp [updateWidths, ih]

lemma updateWidths_getD (ws : List Nat) (row : List String) (i : Nat) (hi : i < ws.length) :
    (updateWidths ws row).getD i 0 = max (ws.getD i 0) ((cellD row i).length) := by
  induction ws generalizing row i with
  | nil => simp at hi
  | cons w ws ih =>
    cases row with
    | nil =>
      simp [updateWidths, cellD]
    | cons v vs =>
      cases i with
      | zero =>
        simp [updateWidths, cellD]
        split <;> omega
      | succ i =>
        simp only [updateWidths, List.getD_cons_succ]
        rw [ih vs i (by simpa using Nat.lt_of_succ_lt_succ hi)]
        rfl

lemma foldl_updateWidths_length (rows : List (List String)) (ws : List Nat) :
    (rows.foldl updateWidths ws).length = ws.length := by
  induction rows generalizing ws with
  | nil => rfl
  | cons r rows ih => simp [List.foldl_cons, ih, updateWidths_length]

lemma foldl_updateWidths_getD (rows : List (List String)) (ws : List Nat) (i : Nat)
    (hi : i < ws.length) :
    (rows.foldl updateWidths ws).getD i 0 =
      rows.foldl (fun acc r => max acc ((cellD r i).length)) (ws.getD i 0) := by
  induction rows generalizing ws with
  | nil => rfl
  | cons r rows ih =>
    simp only [List.foldl_cons]
    rw [ih (updateWidths ws r) ((updateWidths_length ws r).symm ▸ hi),
      updateWidths_getD ws r i hi]

lemma colsFromWidths_length (ws : List Nat) (a : Nat) :
    (colsFromWidths ws a).length = ws.length := by
  induction ws generalizing a with
  | nil => rfl
  | cons w ws ih => simp [colsFromWidths, ih]

lemma colsFromWidths_width (ws : List Nat) (a i : Nat) (hi : i < ws.length) :
    (colD (colsFromWidths ws a) i).width = ws.getD i 0 := by
  induction ws generalizing a i with
  | nil => simp at hi
  | cons w ws ih =>
    cases i with
    | zero => rfl
    | succ i =>
      simp only [colsFromWidths, colD, List.getD_cons_succ]
      exact ih (a + w) i (by simpa using Nat.lt_of_succ_lt_succ hi)

lemma colsFromWidths_index_zero (ws : List Nat) (a : Nat) (h : 0 < ws.length) :
    (colD (colsFromWidths ws a) 0).index = a := by
  cases ws with
  | nil => simp at h
  | cons w ws => rfl

lemma colsFromWidths_index_succ (ws : List Nat) (a i : Nat) (hi : i + 1 < ws.length) :
    (colD (colsFromWidths ws a) (i + 1)).index =
      (colD (colsFromWidths ws a) i).index + (colD (colsFromWidths ws a) i).width := by
  induction ws generalizing a i with
  | nil => simp at hi
  | cons w ws ih =>
    cases i with
    | zero =>
      cases ws with
      | nil => simp at hi
      | cons w2 ws2 => rfl
    | succ i =>
      simp only [colsFromWidths, colD, List.getD_cons_succ]
      exact ih (a + w) i (by simpa using Nat.lt_of_succ_lt_succ hi)

lemma compute_col_widths_length (header : List String) (rows : List (List String))
    (padding W : Nat) :
    (compute_col_widths (header :: rows) padding W).length = header.length := by
  simp [compute_col_widths, foldl_updateWidths_length]

lemma getD_map_of_lt (l : List Nat) (f : Nat → Nat) (i : Nat) (hi : i < l.length) :
    (l.map f).getD i 0 = f (l.getD i 0) := by
  rw [List.getD_eq_getElem _ _ (by simpa using hi), List.getD_eq_getElem _ _ hi,
    List.getElem_map]

lemma compute_col_widths_getD (header : List String) (rows : List (List String)) (W i : Nat)
    (hi : i < header.length) :
    (compute_col_widths (header :: rows) 2 W).getD i 0 =
      min (rows.foldl (fun acc r => max acc ((cellD r i).length))
            ((cellD header i).length) + 2) W := by
  have hlen1 : (rows.foldl updateWidths (header.map (fun v => v.length))).length =
      header.length := by
    simp [foldl_updateWidths_length]
  have hmap : (header.map (fun v => v.length)).getD i 0 = (cellD header i).length := by
    rw [List.getD_eq_getElem _ _ (by simpa using hi), List.getElem_map, cellD,
      List.getD_eq_getElem _ _ hi]
  rw [compute_col_widths]
  simp only
  rw [getD_map_of_lt _ _ _ (by omega)]
  rw [foldl_updateWidths_getD _ _ _ (by simpa using hi), hmap]
  split <;> omega

/-! ## Claim C8: column layout computed at construction -/

/-- C8: for every grid (header plus rectangular rows, C ≥ 1 columns) and
terminal width W, the layout built by the constructor has one entry per
column; column i's width is the maximum character length of that column's
header/cell values plus the padding 2, clamped to exactly W if larger; and
the start offsets are contiguous: offset 0 is 0 and each next offset is the
previous offset plus the previous width. -/
theorem c8_column_layout (header : List String) (rows : List (List String)) (W H : Nat)
    (hC : 1 ≤ header.length) (hrect : ∀ r ∈ rows, r.length = header.length) :
    (TableState.new header rows ⟨W, H⟩).columns.length = header.length ∧
    (∀ i, i < header.length →
      (colD (TableState.new header rows ⟨W, H⟩).columns i).width =
        min (rows.foldl (fun acc r => max acc ((cellD r i).length))
              ((cellD header i).length) + 2) W) ∧
    (colD (TableState.new header rows ⟨W, H⟩).columns 0).index = 0 ∧
    (∀ i, i + 1 < header.length →
      (colD (TableState.new header rows ⟨W, H⟩).columns (i + 1)).index =
        (colD (TableState.new header rows ⟨W, H⟩).columns i).index +
        (colD (TableState.new header rows ⟨W, H⟩).columns i).width) := by
  have hlen : (compute_col_widths (header :: rows) 2 W).length = header.length :=
    compute_col_widths_length header rows 2 W
  have hcols : (TableState.new header rows ⟨W, H⟩).columns =
      colsFromWidths (compute_col_widths (header :: rows) 2 W) 0 := rfl
  refine ⟨?_, ?_, ?_, ?_⟩
  · rw [hcols, colsFromWidths_length, hlen]
  · intro i hi
    rw [hcols, colsFromWidths_width _ _ _ (by omega), compute_col_widths_getD _ _ _ _ hi]
  · rw [hcols, colsFromWidths_index_zero]
    rw [hlen]
    omega
  · intro i hi
    rw [hcols, colsFromWidths_index_succ _ _ _ (by omega)]

/-- Witness for C8 on the spec's literal scenario grid. -/
theorem c8_column_layout_witness :
    (colD (TableState.new ["#", "a", "bb", "c"]
        [["1", "1a", "1bb", "1c"], ["2", "2a", "2bb", "2c"]] ⟨9, 4⟩).columns 2).width =
      min ([["1", "1a", "1bb", "1c"], ["2", "2a", "2bb", "2c"]].foldl
            (fun acc r => max acc ((cellD r 2).length))
            ((cellD ["#", "a", "bb", "c"] 2).length) + 2) 9 :=
  (c8_column_layout ["#", "a", "bb", "c"]
      [["1", "1a", "1bb", "1c"], ["2", "2a", "2bb", "2c"]] 9 4
      (by decide) (by decide)).2.1 2 (by decide)

/-! ## Claim C10: frame conditions of the operations -/

/-- C10: every operation of the viewport state machine leaves the header, the
column layout and the terminal size unchanged; the horizontal operations
additionally leave the row offset, the cursor row and the rows unchanged, and
the vertical operations leave the column offset, the cursor column and the
rows unchanged. -/
theorem c10_frame_conditions (op : Op) (st : TableState) :
    (applyOp op st).1.header = st.header ∧ (applyOp op st).1.columns = st.columns ∧
    (applyOp op st).1.terminal_size = st.terminal_size ∧
    ((op = .moveLeft ∨ op = .moveRight ∨ op = .moveStartOfLine ∨ op = .moveEndOfLine) →
      (applyOp op st).1.offsets.row = st.offsets.row ∧
      (applyOp op st).1.cur_pos.row = st.cur_pos.row ∧
      (applyOp op st).1.rows = st.rows) ∧
    ((op = .moveDown ∨ op = .moveUp ∨ op = .movePageDown ∨ op = .movePageUp ∨
      op = .moveHome ∨ op = .moveEnd) →
      (applyOp op st).1.offsets.col = st.offsets.col ∧
      (applyOp op st).1.cur_pos.col = st.cur_pos.col ∧
      (applyOp op st).1.rows = st.rows) := by
  refine ⟨(applyOp_static op st).1, (applyOp_static op st).2.1, (applyOp_static op st).2.2,
    ?_, ?_⟩
  · rintro (rfl | rfl | rfl | rfl) <;>
      simp only [applyOp, TableState.move_left, TableState.move_right,
        TableState.move_start_of_line, TableState.move_end_of_line] <;>
      (repeat' split) <;> simp
  · rintro (rfl | rfl | rfl | rfl | rfl | rfl) <;>
      simp only [applyOp, TableState.move_down, TableState.move_up, TableState.move_page_down,
        TableState.move_page_up, TableState.move_home, TableState.move_end] <;>
      (repeat' split) <;> simp

/-- Witness for C10 at a concrete operation and state. -/
theorem c10_frame_conditions_witness :
    (applyOp Op.moveLeft
        { header := ["#"], rows := [["1"]], columns := [⟨3, 0⟩], terminal_size := ⟨3, 2⟩,
          cur_pos := ⟨0, 0⟩, offsets := ⟨0, 0⟩, command_buffer := [] }).1.offsets.row = 0 ∧
    (applyOp Op.moveDown
        { header := ["#"], rows := [["1"]], columns := [⟨3, 0⟩], terminal_size := ⟨3, 2⟩,
          cur_pos := ⟨0, 0⟩, offsets := ⟨0, 0⟩, command_buffer := [] }).1.offsets.col = 0 := by
  constructor
  · exact ((c10_frame_conditions Op.moveLeft _).2.2.2.1 (Or.inl rfl)).1
  · exact ((c10_frame_conditions Op.moveDown _).2.2.2.2 (Or.inl rfl)).1

/-! ## Claim C5: vertical moves on a grid with zero data rows -/

/-- C5 counterexample: on a grid with zero data rows, `move_page_down` is not
a no-op — from the initial state it moves the cursor to display row 1 and
returns MoveCursor, contradicting the claim that every vertical navigation
operation leaves the state unchanged and returns None. -/
theorem c5_counterexample :
    (TableState.new ["#"] [] ⟨3, 3⟩).rows = [] ∧
    (TableState.new ["#"] [] ⟨3, 3⟩).cur_pos.row = 0 ∧
    ((TableState.new ["#"] [] ⟨3, 3⟩).move_page_down).2 = RenderingAction.moveCursor ∧
    ((TableState.new ["#"] [] ⟨3, 3⟩).move_page_down).1.cur_pos.row = 1 := by
  decide

/-- C5 amended: on a grid with zero data rows, from any state with the cursor
on the header and row offset 0 (as initially), `move_down`, `move_up` and
`move_page_up` leave the state unchanged and return None; `move_home` and
`move_end` leave the state unchanged but return Rerender; `move_page_down`
moves the cursor to display row 1 and returns MoveCursor. -/
theorem c5_empty_grid_vertical (st : TableState) (hrows : st.rows = [])
    (hoff : st.offsets.row = 0) (hcur : st.cur_pos.row = 0) :
    st.move_down = (st, .none) ∧ st.move_up = (st, .none) ∧
    st.move_page_up = (st, .none) ∧
    st.move_home = (st, .rerender) ∧ st.move_end = (st, .rerender) ∧
    st.move_page_down = ({ st with cur_pos := ⟨st.cur_pos.col, 1⟩ }, .moveCursor) := by
  obtain ⟨hd, rws, cols, ts, ⟨cpc, cpr⟩, ⟨oc, orow⟩, cb⟩ := st
  simp only at hrows hoff hcur
  subst hrows hoff hcur
  refine ⟨?_, ?_, ?_, ?_, ?_, ?_⟩ <;>
    simp [TableState.move_down, TableState.move_up, TableState.move_page_up,
      TableState.move_home, TableState.move_end, TableState.move_page_down,
      TableState.is_bottom, TableState.first_row_visible, TableState.final_row_visible,
      TableState.displayable_data_rows]

/-- Witness for C5 amended at a concrete empty grid. -/
theorem c5_empty_grid_vertical_witness :
    (TableState.new ["#"] [] ⟨3, 3⟩).move_down = (TableState.new ["#"] [] ⟨3, 3⟩, .none) :=
  (c5_empty_grid_vertical (TableState.new ["#"] [] ⟨3, 3⟩) (by decide) (by decide)
    (by decide)).1

/-! ## Claim C6: the command buffer across mode exits and commits -/

/-- C6 counterexample: Enter committing a search returns the mode to Normal
but does NOT clear the command buffer — with buffer "/a", after the Enter key
the buffer still holds "/a", contradicting the claim that the buffer is
cleared on every commit. -/
theorem c6_counterexample :
    (step .command .esc
        { header := ["#"], rows := [["1"]], columns := [⟨3, 0⟩], terminal_size := ⟨3, 2⟩,
          cur_pos := ⟨0, 0⟩, offsets := ⟨0, 0⟩, command_buffer := ['/', 'a'] }
        (.char '\n')).1 = Mode.normal ∧
    (step .command .esc
        { header := ["#"], rows := [["1"]], columns := [⟨3, 0⟩], terminal_size := ⟨3, 2⟩,
          cur_pos := ⟨0, 0⟩, offsets := ⟨0, 0⟩, command_buffer := ['/', 'a'] }
        (.char '\n')).2.1.command_buffer = ['/', 'a'] := by
  decide

/-- C6 amended: in Command mode, Escape aborts, clearing the buffer and
returning to Normal; when Backspace empties the buffer the mode falls back to
Normal with an empty buffer; Enter returns the mode to Normal but leaves the
command buffer unchanged (the committed pattern is retained, backing the
repeat-last-search command). -/
theorem c6_buffer_protocol (st : TableState) (prev : Key) :
    ((step .command prev st .esc).1 = .normal ∧
      (step .command prev st .esc).2.1.command_buffer = []) ∧
    (st.command_buffer.dropLast = [] →
      (step .command prev st .backspace).1 = .normal ∧
      (step .command prev st .backspace).2.1.command_buffer = []) ∧
    ((step .command prev st (.char '\n')).1 = .normal ∧
      (step .command prev st (.char '\n')).2.1.command_buffer = st.command_buffer) := by
  have ebs : step .command prev st .backspace =
      (if (st.command_buffer.dropLast).isEmpty then
        (.normal, { st with command_buffer := st.command_buffer.dropLast }, .rerender)
      else (.command, { st with command_buffer := st.command_buffer.dropLast }, .command)) := rfl
  have ecr : step .command prev st (.char '\n') =
      (if st.command_buffer.length ≤ 1 then (.normal, st, .rerender)
       else (.normal, (st.execute_command).1, (st.execute_command).2)) := rfl
  have hbuf : ∀ p, ((st.search p).1).command_buffer = st.command_buffer := by
    intro p
    rw [TableState.search]
    split
    · rw [TableState.jump_to_row]
      split
      · rfl
      · split <;> rfl
    · rfl
  refine ⟨⟨rfl, rfl⟩, ?_, ?_⟩
  · intro h
    rw [ebs, h]
    exact ⟨rfl, rfl⟩
  · rw [ecr]
    split
    · exact ⟨rfl, rfl⟩
    · refine ⟨rfl, ?_⟩
      rw [TableState.execute_command]
      split
      · exact hbuf _
      · rfl

/-- Witness for C6 amended at a concrete state. -/
theorem c6_buffer_protocol_witness :
    (step .command .esc
        { header := ["#"], rows := [["1"]], columns := [⟨3, 0⟩], terminal_size := ⟨3, 2⟩,
          cur_pos := ⟨0, 0⟩, offsets := ⟨0, 0⟩, command_buffer := ['/'] }
        .backspace).2.1.command_buffer = [] :=
  ((c6_buffer_protocol
      { header := ["#"], rows := [["1"]], columns := [⟨3, 0⟩], terminal_size := ⟨3, 2⟩,
        cur_pos := ⟨0, 0⟩, offsets := ⟨0, 0⟩, command_buffer := ['/'] }
      .esc).2.1 (by decide)).2

/-! ## Comparator and stable-sort lemmas -/

lemma compare_int_ne_gt {a b : String} :
    compare_int a b ≠ .gt ↔ parseNat a ≤ parseNat b := by
  rw [compare_int, Ne, Nat.compare_eq_gt]
  omega

lemma compare_str_ne_gt {a b : String} :
    compare_str a b ≠ .gt ↔ ¬ List.Lex (· < ·) b.data a.data := by
  rw [compare_str]
  split
  · rename_i h
    simp [asymm h]
  · split
    · rename_i h2
      simp [h2]
    · rename_i h1 h2
      simp [h2]

lemma compare_str_eq_iff {a b : String} : compare_str a b = .eq ↔ a = b := by
  rw [compare_str]
  split
  · rename_i h
    simp only [reduceCtorEq, false_iff]
    rintro rfl
    exact asymm h h
  · split
    · rename_i h1 h2
      simp only [reduceCtorEq, false_iff]
      rintro rfl
      exact asymm h2 h2
    · rename_i h1 h2
      simp only [true_iff]
      have htri := @trichotomous (List Char) (List.Lex (· < ·)) inferInstance a.data b.data
      rcases htri with h | h | h
      · exact absurd h h1
      · cases a
        cases b
        simp only at h
        rw [h]
      · exact absurd h h2

lemma rowComp_le_trans (col : Nat) (a b c : List String)
    (h1 : rowComp col a b ≠ .gt) (h2 : rowComp col b c ≠ .gt) : rowComp col a c ≠ .gt := by
  by_cases hcol : col = 0
  · rw [rowComp, if_pos hcol] at h1 h2 ⊢
    rw [compare_int_ne_gt] at h1 h2 ⊢
    omega
  · rw [rowComp, if_neg hcol] at h1 h2 ⊢
    rw [compare_str_ne_gt] at h1 h2 ⊢
    intro hca
    rcases IsOrderConnected.conn (cellD c col).data (cellD b col).data (cellD a col).data hca
      with h | h
    · exact h2 h
    · exact h1 h

lemma rowComp_le_total (col : Nat) (a b : List String) :
    rowComp col a b ≠ .gt ∨ rowComp col b a ≠ .gt := by
  by_cases hcol : col = 0
  · rw [rowComp, rowComp, if_pos hcol, if_pos hcol, compare_int_ne_gt, compare_int_ne_gt]
    omega
  · rw [rowComp, rowComp, if_neg hcol, if_neg hcol, compare_str_ne_gt, compare_str_ne_gt]
    by_cases h : List.Lex (· < ·) (cellD b col).data (cellD a col).data
    · exact Or.inr (asymm h)
    · exact Or.inl h

lemma mergeSort_filter_stable {α : Type} (le : α → α → Bool)
    (trans : ∀ (a b c : α), le a b → le b c → le a c)
    (total : ∀ (a b : α), le a b || le b a)
    (l : List α) (p : α → Bool)
    (hp : ∀ a b, p a = true → p b = true → le a b = true) :
    (l.mergeSort le).filter p = l.filter p := by
  have hpair : (l.filter p).Pairwise (fun a b => le a b = true) :=
    List.pairwise_of_forall_mem_list fun a ha b hb =>
      hp a b (List.of_mem_filter ha) (List.of_mem_filter hb)
  have hsub : List.Sublist (l.filter p) (l.mergeSort le) :=
    List.sublist_mergeSort trans total hpair (List.filter_sublist l)
  have hperm : List.Perm ((l.mergeSort le).filter p) (l.filter p) :=
    (List.mergeSort_perm l le).filter p
  have hsub2 : List.Sublist (l.filter p) ((l.mergeSort le).filter p) := by
    have := List.Sublist.filter p hsub
    rwa [List.filter_eq_self.mpr (fun a ha => List.mem_filter.mp ha |>.2)] at this
  exact (hsub2.eq_of_length hperm.length_eq.symm).symm

lemma digitChar_toNat (d : Nat) (hd : d < 10) : (digitChar d).toNat - 48 = d := by
  interval_cases d <;> decide

lemma foldl_parse_append (xs : List Char) (c : Char) :
    (xs ++ [c]).foldl (fun acc x => acc * 10 + (x.toNat - 48)) 0 =
      (xs.foldl (fun acc x => acc * 10 + (x.toNat - 48)) 0) * 10 + (c.toNat - 48) := by
  rw [List.foldl_append]
  rfl

lemma toDecimalAux_parse : ∀ (fuel n : Nat), n < fuel →
    (toDecimalAux fuel n).foldl (fun acc x => acc * 10 + (x.toNat - 48)) 0 = n := by
  intro fuel
  induction fuel with
  | zero => omega
  | succ fuel ih =>
    intro n hn
    rw [toDecimalAux]
    split
    · rename_i h10
      simp only [List.foldl_cons, List.foldl_nil]
      rw [digitChar_toNat n h10]
      omega
    · rename_i h10
      rw [foldl_parse_append, ih (n / 10) (by omega), digitChar_toNat (n % 10) (by omega)]
      omega

lemma parse_decimalStr (n : Nat) : parseNat (decimalStr n) = n :=
  toDecimalAux_parse (n + 1) n (Nat.lt_succ_self n)

lemma applyOps_rows_perm (ops : List Op) (st : TableState) :
    (applyOps ops st).rows.Perm st.rows := by
  induction ops generalizing st with
  | nil => exact List.Perm.refl _
  | cons op ops ih =>
    exact (ih (applyOp op st).1).trans (applyOp_rows_perm op st)

lemma find?_scanOrder_eq_some {cur len r : Nat} {p : Nat → Bool}
    (hcur : cur ≤ len) (hr : r < len) (hp : p r = true)
    (hbefore : ∀ x, x < len →
      ((cur ≤ x ∧ cur ≤ r ∧ x < r) ∨ (x < cur ∧ r < cur ∧ x < r) ∨ (cur ≤ x ∧ r < cur)) →
      p x = false) :
    (scanOrder cur len).find? p = some r := by
  rw [scanOrder, List.find?_append]
  by_cases hge : cur ≤ r
  · have h1 : (List.range' cur (len - cur)).find? p = some r := by
      rw [find?_range'_eq_some]
      exact ⟨hge, by omega, hp,
        fun j hj1 hj2 => hbefore j (by omega) (Or.inl ⟨hj1, hge, hj2⟩)⟩
    rw [h1]
    rfl
  · have h1 : (List.range' cur (len - cur)).find? p = Option.none := by
      rw [List.find?_eq_none]
      intro x hx
      obtain ⟨i, hi, rfl⟩ := List.mem_range'.mp hx
      have hpf := hbefore (cur + 1 * i) (by omega) (Or.inr (Or.inr ⟨by omega, by omega⟩))
      simpa using hpf
    rw [h1]
    have h2 : (List.range cur).find? p = some r := by
      rw [find?_range_eq_some]
      exact ⟨by omega, hp,
        fun j hj => hbefore j (by omega) (Or.inr (Or.inl ⟨by omega, by omega, hj⟩))⟩
    rw [h2]
    rfl

/-! ## Claim C2: search scan order and placement -/

/-- C2: for every well-formed state with the cursor on a data row, `search`
scans the rows starting at the row immediately after the current absolute
row (`rowOffset + cursorRow - 1`), forward and wrapping around to row 0,
testing the cell at the current absolute column for substring containment;
at the first match r it places window and cursor by the three-way rule:
within the first window the offset becomes 0 and the cursor lands directly
on the row; within the last possible window the offset is pinned to
`len(rows) - displayableDataRows`; otherwise the row becomes the window top
with the cursor on the first data line.  In particular a pattern occurring
only before the current row is found (the hypotheses allow r on either side
of the scan start).  Always returns Rerender. -/
theorem c2_search_semantics (st : TableState) (pattern : String) (r : Nat)
    (hcr : 1 ≤ st.cur_pos.row)
    (hcur : st.offsets.row + st.cur_pos.row ≤ st.rows.length)
    (hr : r < st.rows.length)
    (hmatch : containsStr (cellD (st.rows.getD r []) st.current_column) pattern = true)
    (hfirst : ∀ x, x < st.rows.length →
      (((st.offsets.row + st.cur_pos.row - 1) + 1 ≤ x ∧
          (st.offsets.row + st.cur_pos.row - 1) + 1 ≤ r ∧ x < r) ∨
        (x < (st.offsets.row + st.cur_pos.row - 1) + 1 ∧
          r < (st.offsets.row + st.cur_pos.row - 1) + 1 ∧ x < r) ∨
        ((st.offsets.row + st.cur_pos.row - 1) + 1 ≤ x ∧
          r < (st.offsets.row + st.cur_pos.row - 1) + 1)) →
      containsStr (cellD (st.rows.getD x []) st.current_column) pattern = false) :
    st.search pattern =
      (if r < st.displayable_data_rows then
        { st with offsets := ⟨st.offsets.col, 0⟩, cur_pos := ⟨st.cur_pos.col, r + 1⟩ }
      else if st.rows.length - r < st.displayable_data_rows then
        { st with offsets := ⟨st.offsets.col, st.rows.length - st.displayable_data_rows⟩,
                  cur_pos := ⟨st.cur_pos.col,
                    r - (st.rows.length - st.displayable_data_rows) + 1⟩ }
      else
        { st with offsets := ⟨st.offsets.col, r⟩, cur_pos := ⟨st.cur_pos.col, 1⟩ },
      .rerender) := by
  have hs : (st.offsets.row + st.cur_pos.row - 1) + 1 = st.current_row := by
    rw [TableState.current_row]
    omega
  rw [TableState.search]
  have hfind : (scanOrder st.current_row st.rows.length).find?
      (fun row => containsStr (cellD (st.rows.getD row []) st.current_column) pattern) =
      some r := by
    refine find?_scanOrder_eq_some (by rw [TableState.current_row]; omega) hr hmatch ?_
    intro x hx hd
    rw [← hs] at hd
    exact hfirst x hx hd
  simp only [hfind]
  rw [TableState.jump_to_row]

/-- Witness for C2: the pattern occurs only in a row before the current row
and is found by wrapping around. -/
theorem c2_search_semantics_witness :
    TableState.search
      { header := ["#"], rows := [["za"], ["b"], ["c"]], columns := [⟨3, 0⟩],
        terminal_size := ⟨3, 3⟩, cur_pos := ⟨0, 2⟩, offsets := ⟨0, 1⟩,
        command_buffer := [] } "za" =
      ({ header := ["#"], rows := [["za"], ["b"], ["c"]], columns := [⟨3, 0⟩],
         terminal_size := ⟨3, 3⟩, cur_pos := ⟨0, 1⟩, offsets := ⟨0, 0⟩,
         command_buffer := [] }, .rerender) := by
  have h := c2_search_semantics
    { header := ["#"], rows := [["za"], ["b"], ["c"]], columns := [⟨3, 0⟩],
      terminal_size := ⟨3, 3⟩, cur_pos := ⟨0, 2⟩, offsets := ⟨0, 1⟩,
      command_buffer := [] } "za" 0 (by decide) (by decide) (by decide) (by decide)
    (by decide)
  simpa using h

/-! ## Claim C3: move_right -/

/-- C3: if the current absolute column is the last column, `move_right`
returns None and leaves the state unchanged.  Otherwise it advances the
absolute current column by exactly one; it returns MoveCursor with the
column offset unchanged exactly when the new column's right edge fits within
`startOffset[colOffset] + terminalWidth`; otherwise it returns Rerender,
setting the column offset to the smallest value at or after the old offset
whose window fits the new column's right edge, and adjusts the cursor column
so the absolute current column is preserved.  (The hypothesis that every
column width fits the terminal holds for every layout the constructor
builds, by C8.) -/
theorem c3_move_right (st : TableState)
    (hw : ∀ c ∈ st.columns, c.width ≤ st.terminal_size.x) :
    (st.current_column = st.columns.length - 1 → st.move_right = (st, .none)) ∧
    (st.current_column < st.columns.length - 1 →
      (st.move_right).1.current_column = st.current_column + 1 ∧
      ((colD st.columns (st.current_column + 1)).index +
          (colD st.columns (st.current_column + 1)).width ≤
          (colD st.columns st.offsets.col).index + st.terminal_size.x →
        st.move_right =
          ({ st with cur_pos := ⟨st.cur_pos.col + 1, st.cur_pos.row⟩ }, .moveCursor)) ∧
      (¬ ((colD st.columns (st.current_column + 1)).index +
            (colD st.columns (st.current_column + 1)).width ≤
            (colD st.columns st.offsets.col).index + st.terminal_size.x) →
        (st.move_right).2 = .rerender ∧
        st.offsets.col ≤ (st.move_right).1.offsets.col ∧
        (colD st.columns (st.current_column + 1)).index +
          (colD st.columns (st.current_column + 1)).width ≤
          (colD st.columns (st.move_right).1.offsets.col).index + st.terminal_size.x ∧
        (∀ j, st.offsets.col ≤ j → j < (st.move_right).1.offsets.col →
          ¬ ((colD st.columns (st.current_column + 1)).index +
              (colD st.columns (st.current_column + 1)).width ≤
              (colD st.columns j).index + st.terminal_size.x)) ∧
        (st.move_right).1.offsets.col + (st.move_right).1.cur_pos.col =
          st.current_column + 1)) := by
  constructor
  · intro h
    rw [TableState.move_right, if_pos h]
  · intro hlt
    have hC : st.current_column + 1 < st.columns.length := by omega
    have hne : ¬ st.current_column = st.columns.length - 1 := by omega
    have hbody : st.move_right =
        (if (colD st.columns (st.current_column + 1)).index +
              (colD st.columns (st.current_column + 1)).width -
              (colD st.columns st.offsets.col).index ≤ st.terminal_size.x then
          ({ st with cur_pos := ⟨st.cur_pos.col + 1, st.cur_pos.row⟩ }, .moveCursor)
        else
          match (List.range' st.offsets.col (st.current_column + 1 + 1 - st.offsets.col)).find?
              (fun i => decide ((colD st.columns (st.current_column + 1)).index +
                (colD st.columns (st.current_column + 1)).width -
                (colD st.columns i).index ≤ st.terminal_size.x)) with
          | some i =>
            ({ st with cur_pos := ⟨st.cur_pos.col + 1 - (i - st.offsets.col), st.cur_pos.row⟩,
                       offsets := ⟨i, st.offsets.row⟩ }, .rerender)
          | Option.none =>
            ({ st with cur_pos := ⟨st.cur_pos.col + 1, st.cur_pos.row⟩ }, .rerender)) := by
      rw [TableState.move_right, if_neg hne]
      rfl
    have hsub : ∀ a b c : Nat, a - b ≤ c ↔ a ≤ b + c := by
      intro a b c
      omega
    by_cases hfit : (colD st.columns (st.current_column + 1)).index +
        (colD st.columns (st.current_column + 1)).width ≤
        (colD st.columns st.offsets.col).index + st.terminal_size.x
    · rw [hbody, if_pos ((hsub _ _ _).mpr hfit)]
      refine ⟨?_, fun _ => rfl, fun hn => absurd hfit hn⟩
      simp [TableState.current_column]
      omega
    · rw [hbody, if_neg (fun hx => hfit ((hsub _ _ _).mp hx))]
      have hwn : (colD st.columns (st.current_column + 1)).width ≤ st.terminal_size.x := by
        refine hw _ ?_
        rw [colD, List.getD_eq_getElem _ _ hC]
        exact List.getElem_mem hC
      have hoff : st.offsets.col ≤ st.current_column := Nat.le_add_right _ _
      rcases hfind : (List.range' st.offsets.col
          (st.current_column + 1 + 1 - st.offsets.col)).find?
          (fun i => decide ((colD st.columns (st.current_column + 1)).index +
            (colD st.columns (st.current_column + 1)).width -
            (colD st.columns i).index ≤ st.terminal_size.x)) with _ | i
      · exfalso
        rw [List.find?_eq_none] at hfind
        refine hfind (st.current_column + 1) ?_ ?_
        · rw [List.mem_range']
          exact ⟨st.current_column + 1 - st.offsets.col, by omega, by omega⟩
        · simp only [decide_eq_true_eq]
          omega
      · obtain ⟨hi1, hi2, hi3, hi4⟩ := find?_range'_eq_some.mp hfind
        simp only [decide_eq_true_eq] at hi3
        rw [TableState.current_column] at hi2
        dsimp only
        refine ⟨?_, fun hcon => absurd hcon hfit, fun _ => ⟨rfl, hi1, ?_, ?_, ?_⟩⟩
        · simp only [TableState.current_column]
          omega
        · omega
        · intro j hj1 hj2 hcon
          have hj := hi4 j hj1 hj2
          simp only [decide_eq_false_iff_not] at hj
          exact hj (by omega)
        · simp only [TableState.current_column]
          omega

/-- Witness for C3 on the spec's literal scenario grid: the second
`move_right` forces a Rerender with colOffset 1. -/
theorem c3_move_right_witness :
    (((TableState.new ["#", "a", "bb", "c"]
        [["1", "1a", "1bb", "1c"], ["2", "2a", "2bb", "2c"]] ⟨9, 4⟩).move_right).1.move_right).2 =
      .rerender := by
  have hst1 : ((TableState.new ["#", "a", "bb", "c"]
      [["1", "1a", "1bb", "1c"], ["2", "2a", "2bb", "2c"]] ⟨9, 4⟩).move_right).1 =
      { header := ["#", "a", "bb", "c"],
        rows := [["1", "1a", "1bb", "1c"], ["2", "2a", "2bb", "2c"]],
        columns := [⟨3, 0⟩, ⟨4, 3⟩, ⟨5, 7⟩, ⟨4, 12⟩], terminal_size := ⟨9, 4⟩,
        cur_pos := ⟨1, 0⟩, offsets := ⟨0, 0⟩, command_buffer := [] } := by decide
  rw [hst1]
  have h := c3_move_right
    { header := ["#", "a", "bb", "c"],
      rows := [["1", "1a", "1bb", "1c"], ["2", "2a", "2bb", "2c"]],
      columns := [⟨3, 0⟩, ⟨4, 3⟩, ⟨5, 7⟩, ⟨4, 12⟩], terminal_size := ⟨9, 4⟩,
      cur_pos := ⟨1, 0⟩, offsets := ⟨0, 0⟩, command_buffer := [] } (by decide)
  exact ((h.2 (by decide)).2.2 (by decide)).1

/-! ## Claim C4: ascending(0) restores the original row order -/

/-- C4: for every state whose column 0 holds the decimal numerals "1".."N" in
order, after any sequence of ascending/descending sort operations, a final
`ascending 0` restores the rows to their original order. -/
theorem c4_sort_roundtrip (st : TableState) (ops : List Op)
    (hops : ∀ op ∈ ops, (∃ c, op = Op.ascending c) ∨ (∃ c, op = Op.descending c))
    (horig : st.rows.map (fun r => cellD r 0) =
      (List.range st.rows.length).map (fun i => decimalStr (i + 1))) :
    ((applyOps ops st).ascending 0).1.rows = st.rows := by
  clear hops
  have hkeys : st.rows.map (fun r => parseNat (cellD r 0)) =
      (List.range st.rows.length).map (fun i => i + 1) := by
    have h1 : st.rows.map (fun r => parseNat (cellD r 0)) =
        (st.rows.map (fun r => cellD r 0)).map parseNat := by
      rw [List.map_map]
      rfl
    rw [h1, horig, List.map_map]
    refine List.map_congr_left fun i _ => ?_
    exact parse_decimalStr (i + 1)
  have hperm0 : (applyOps ops st).rows.Perm st.rows := applyOps_rows_perm ops st
  have hres : ((applyOps ops st).ascending 0).1.rows =
      (applyOps ops st).rows.mergeSort (fun r1 r2 => decide (rowComp 0 r1 r2 ≠ .gt)) := rfl
  have transA : ∀ (a b c : List String), decide (rowComp 0 a b ≠ .gt) →
      decide (rowComp 0 b c ≠ .gt) → decide (rowComp 0 a c ≠ .gt) := fun a b c h1 h2 =>
    decide_eq_true (rowComp_le_trans 0 a b c (of_decide_eq_true h1) (of_decide_eq_true h2))
  have totalA : ∀ (a b : List String),
      decide (rowComp 0 a b ≠ .gt) || decide (rowComp 0 b a ≠ .gt) := by
    intro a b
    rcases rowComp_le_total 0 a b with h | h <;> simp [h]
  have hpermAll : ((applyOps ops st).ascending 0).1.rows.Perm st.rows := by
    rw [hres]
    exact (List.mergeSort_perm _ _).trans hperm0
  have hmono : st.rows.Pairwise
      (fun a b => parseNat (cellD a 0) < parseNat (cellD b 0)) := by
    rw [← List.pairwise_map]
    rw [hkeys]
    rw [List.pairwise_map]
    exact (List.pairwise_lt_range st.rows.length).imp (by omega)
  have hsorted : ((applyOps ops st).ascending 0).1.rows.Pairwise
      (fun a b => parseNat (cellD a 0) ≤ parseNat (cellD b 0)) := by
    rw [hres]
    refine (List.sorted_mergeSort transA totalA _).imp fun h => ?_
    have h2 := of_decide_eq_true h
    rw [rowComp, if_pos rfl, compare_int_ne_gt] at h2
    exact h2
  have hnodup : (((applyOps ops st).ascending 0).1.rows.map
      (fun r => parseNat (cellD r 0))).Nodup := by
    refine ((hpermAll.map (fun r => parseNat (cellD r 0))).nodup_iff).mpr ?_
    rw [hkeys]
    exact (List.nodup_range st.rows.length).map fun i j hij => by omega
  have hne : ((applyOps ops st).ascending 0).1.rows.Pairwise
      (fun a b => parseNat (cellD a 0) ≠ parseNat (cellD b 0)) :=
    List.pairwise_map.mp hnodup
  have hlt : ((applyOps ops st).ascending 0).1.rows.Pairwise
      (fun a b => parseNat (cellD a 0) < parseNat (cellD b 0)) := by
    refine (hsorted.and hne).imp fun h => ?_
    omega
  haveI : IsAntisymm (List String)
      (fun a b => parseNat (cellD a 0) < parseNat (cellD b 0)) :=
    ⟨fun a b h1 h2 => by omega⟩
  exact List.eq_of_perm_of_sorted hpermAll hlt hmono

/-- Witness for C4 at a concrete grid and sort sequence. -/
theorem c4_sort_roundtrip_witness :
    ((applyOps [Op.descending 1]
        (TableState.new ["#", "a"] [["1", "y"], ["2", "x"]] ⟨9, 3⟩)).ascending 0).1.rows =
      (TableState.new ["#", "a"] [["1", "y"], ["2", "x"]] ⟨9, 3⟩).rows :=
  c4_sort_roundtrip (TableState.new ["#", "a"] [["1", "y"], ["2", "x"]] ⟨9, 3⟩)
    [Op.descending 1]
    (fun op h => Or.inr ⟨1, by simpa using h⟩)
    (by decide)

/-! ## Claim C7: sort is a stable reordering that touches nothing else -/

/-- C7: for every state and column index within the layout, `ascending` and
`descending` permute the data rows into an order sorted by the selected
comparator on column col (numeric for col = 0, lexicographic otherwise),
stably (rows whose cells compare equal keep their relative order: every
comparator-equivalent selection is filtered out unchanged), leave cursor,
offsets, header, column layout and terminal size untouched, and return
Rerender. -/
theorem c7_sort_properties (st : TableState) (col : Nat) (hcol : col < st.columns.length) :
    ((st.ascending col).2 = .rerender ∧ (st.descending col).2 = .rerender) ∧
    ((st.ascending col).1.rows.Perm st.rows ∧ (st.descending col).1.rows.Perm st.rows) ∧
    ((st.ascending col).1.rows.Pairwise (fun r1 r2 => rowComp col r1 r2 ≠ .gt) ∧
     (st.descending col).1.rows.Pairwise (fun r1 r2 => rowComp col r2 r1 ≠ .gt)) ∧
    (∀ p : List String → Bool,
      (∀ r1 r2, p r1 = true → p r2 = true → rowComp col r1 r2 = .eq) →
      (st.ascending col).1.rows.filter p = st.rows.filter p ∧
      (st.descending col).1.rows.filter p = st.rows.filter p) ∧
    ((st.ascending col).1.cur_pos = st.cur_pos ∧ (st.ascending col).1.offsets = st.offsets ∧
     (st.ascending col).1.header = st.header ∧ (st.ascending col).1.columns = st.columns ∧
     (st.ascending col).1.terminal_size = st.terminal_size ∧
     (st.descending col).1.cur_pos = st.cur_pos ∧ (st.descending col).1.offsets = st.offsets ∧
     (st.descending col).1.header = st.header ∧ (st.descending col).1.columns = st.columns ∧
     (st.descending col).1.terminal_size = st.terminal_size) := by
  have hasc : (st.ascending col).1.rows =
      st.rows.mergeSort (fun r1 r2 => decide (rowComp col r1 r2 ≠ .gt)) := rfl
  have hdesc : (st.descending col).1.rows =
      st.rows.mergeSort (fun r1 r2 => decide (rowComp col r2 r1 ≠ .gt)) := rfl
  have transA : ∀ (a b c : List String), decide (rowComp col a b ≠ .gt) →
      decide (rowComp col b c ≠ .gt) → decide (rowComp col a c ≠ .gt) := fun a b c h1 h2 =>
    decide_eq_true (rowComp_le_trans col a b c (of_decide_eq_true h1) (of_decide_eq_true h2))
  have totalA : ∀ (a b : List String),
      decide (rowComp col a b ≠ .gt) || decide (rowComp col b a ≠ .gt) := by
    intro a b
    rcases rowComp_le_total col a b with h | h <;> simp [h]
  have transD : ∀ (a b c : List String), decide (rowComp col b a ≠ .gt) →
      decide (rowComp col c b ≠ .gt) → decide (rowComp col c a ≠ .gt) := fun a b c h1 h2 =>
    decide_eq_true (rowComp_le_trans col c b a (of_decide_eq_true h2) (of_decide_eq_true h1))
  have totalD : ∀ (a b : List String),
      decide (rowComp col b a ≠ .gt) || decide (rowComp col a b ≠ .gt) := by
    intro a b
    rcases rowComp_le_total col a b with h | h <;> simp [h]
  refine ⟨⟨rfl, rfl⟩, ⟨?_, ?_⟩, ⟨?_, ?_⟩, ?_, ?_⟩
  · rw [hasc]
    exact List.mergeSort_perm st.rows _
  · rw [hdesc]
    exact List.mergeSort_perm st.rows _
  · rw [hasc]
    exact (List.sorted_mergeSort transA totalA st.rows).imp fun h => of_decide_eq_true h
  · rw [hdesc]
    exact (List.sorted_mergeSort transD totalD st.rows).imp fun h => of_decide_eq_true h
  · intro p hp
    constructor
    · rw [hasc]
      refine mergeSort_filter_stable _ transA totalA st.rows p fun a b ha hb => ?_
      exact decide_eq_true (by rw [hp a b ha hb]; intro h; cases h)
    · rw [hdesc]
      refine mergeSort_filter_stable _ transD totalD st.rows p fun a b ha hb => ?_
      exact decide_eq_true (by rw [hp b a hb ha]; intro h; cases h)
  · exact ⟨rfl, rfl, rfl, rfl, rfl, rfl, rfl, rfl, rfl, rfl⟩

/-- Witness for C7 at a concrete state and column. -/
theorem c7_sort_properties_witness :
    ((TableState.new ["#", "a"] [["1", "x"], ["2", "x"]] ⟨9, 3⟩).ascending 1).1.rows.Perm
      (TableState.new ["#", "a"] [["1", "x"], ["2", "x"]] ⟨9, 3⟩).rows :=
  (c7_sort_properties (TableState.new ["#", "a"] [["1", "x"], ["2", "x"]] ⟨9, 3⟩) 1
    (by decide)).2.1.1

/-! ## Claim C9: search with a pattern matching no cell of the column -/

/-- C9: for every well-formed state and every pattern that is contained in no
cell of the current absolute column, `search` leaves the entire state
unchanged and returns Rerender (the embedding is a total function, so the
operation never errors). -/
theorem c9_search_no_match (st : TableState) (pattern : String)
    (hcur : st.current_row ≤ st.rows.length)
    (hnone : ∀ r ∈ st.rows, containsStr (cellD r st.current_column) pattern = false) :
    st.search pattern = (st, .rerender) := by
  rw [TableState.search]
  have hfind : (scanOrder st.current_row st.rows.length).find?
      (fun row => containsStr (cellD (st.rows.getD row []) st.current_column) pattern) =
      Option.none := by
    rw [List.find?_eq_none]
    intro x hx
    have hxlt : x < st.rows.length := mem_scanOrder_lt hcur hx
    simp only [Bool.not_eq_true]
    rw [List.getD_eq_getElem _ _ hxlt]
    exact hnone _ (List.getElem_mem hxlt)
  simp only [hfind]

/-- Witness for C9: a concrete state and pattern that matches nothing. -/
theorem c9_search_no_match_witness :
    (TableState.new ["#", "a"] [["1", "x"], ["2", "y"]] ⟨9, 3⟩).search "zz" =
      (TableState.new ["#", "a"] [["1", "x"], ["2", "y"]] ⟨9, 3⟩, .rerender) :=
  c9_search_no_match _ "zz" (by decide) (by decide)

/-! ## Claim C1: the viewport invariants -/

lemma inv_move_down {st : TableState} (h : StateInv st) : StateInv (st.move_down).1 := by
  rw [TableState.move_down]
  simp only [StateInv, TableState.displayable_data_rows] at h
  split
  · split
    · simp only [StateInv, TableState.displayable_data_rows, TableState.final_row_visible] at *
      omega
    · exact h
  · simp only [StateInv, TableState.displayable_data_rows, TableState.is_bottom] at *
    omega

lemma inv_move_page_down {st : TableState} (h : StateInv st) :
    StateInv (st.move_page_down).1 := by
  rw [TableState.move_page_down]
  simp only [StateInv, TableState.displayable_data_rows] at h
  split
  · simp only [StateInv, TableState.displayable_data_rows] at *
    omega
  · split
    · simp only [StateInv, TableState.displayable_data_rows] at *
      omega
    · split
      · simp only [StateInv, TableState.displayable_data_rows] at *
        omega
      · exact h

lemma inv_move_up {st : TableState} (h : StateInv st) : StateInv (st.move_up).1 := by
  rw [TableState.move_up]
  simp only [StateInv, TableState.displayable_data_rows] at h
  split
  · split
    · simp only [StateInv, TableState.displayable_data_rows] at *
      omega
    · simp only [StateInv, TableState.displayable_data_rows] at *
      omega
  · split
    · simp only [StateInv, TableState.displayable_data_rows] at *
      omega
    · exact h

lemma inv_move_page_up {st : TableState} (h : StateInv st) : StateInv (st.move_page_up).1 := by
  rw [TableState.move_page_up]
  simp only [StateInv, TableState.displayable_data_rows] at h
  split
  · simp only [StateInv, TableState.displayable_data_rows, TableState.first_row_visible] at *
    split
    · omega
    · omega
  · split
    · simp only [StateInv, TableState.displayable_data_rows] at *
      omega
    · exact h

lemma inv_move_home {st : TableState} (h : StateInv st) : StateInv (st.move_home).1 := by
  rw [TableState.move_home]
  simp only [StateInv, TableState.displayable_data_rows] at *
  omega

lemma inv_move_end {st : TableState} (h : StateInv st) : StateInv (st.move_end).1 := by
  rw [TableState.move_end]
  split
  · simp only [StateInv, TableState.displayable_data_rows] at *
    omega
  · simp only [StateInv, TableState.displayable_data_rows] at *
    omega

lemma inv_move_left {st : TableState} (h : StateInv st) : StateInv (st.move_left).1 := by
  rw [TableState.move_left]
  split
  · split
    · simp only [StateInv, TableState.displayable_data_rows] at *
      omega
    · exact h
  · simp only [StateInv, TableState.displayable_data_rows] at *
    omega

lemma inv_move_start_of_line {st : TableState} (h : StateInv st) :
    StateInv (st.move_start_of_line).1 := by
  rw [TableState.move_start_of_line]
  split
  · simp only [StateInv, TableState.displayable_data_rows] at *
    omega
  · simp only [StateInv, TableState.displayable_data_rows] at *
    omega

lemma inv_move_end_of_line {st : TableState} (h : StateInv st) :
    StateInv (st.move_end_of_line).1 := by
  rw [TableState.move_end_of_line]
  obtain ⟨h1, h2, h3, h4, h5, h6, h7⟩ := h
  rw [TableState.displayable_data_rows] at h3 h4 h5
  rcases hfind : (List.range st.columns.length).find?
      (fun i => decide ((colD st.columns (st.columns.length - 1)).index +
        (colD st.columns (st.columns.length - 1)).width -
        (colD st.columns i).index ≤ st.terminal_size.x)) with _ | i
  · exact ⟨h1, h2, h3, h4, h5, h6, h7⟩
  · obtain ⟨hi1, _, _⟩ := find?_range_eq_some.mp hfind
    simp only [StateInv, TableState.displayable_data_rows]
    omega

lemma inv_move_right {st : TableState} (h : StateInv st) : StateInv (st.move_right).1 := by
  obtain ⟨h1, h2, h3, h4, h5, h6, h7⟩ := h
  by_cases hne : st.current_column = st.columns.length - 1
  · rw [TableState.move_right, if_pos hne]
    exact ⟨h1, h2, h3, h4, h5, h6, h7⟩
  · rw [TableState.current_column] at hne
    have hbody : st.move_right =
        (if (colD st.columns (st.current_column + 1)).index +
              (colD st.columns (st.current_column + 1)).width -
              (colD st.columns st.offsets.col).index ≤ st.terminal_size.x then
          ({ st with cur_pos := ⟨st.cur_pos.col + 1, st.cur_pos.row⟩ }, .moveCursor)
        else
          match (List.range' st.offsets.col (st.current_column + 1 + 1 - st.offsets.col)).find?
              (fun i => decide ((colD st.columns (st.current_column + 1)).index +
                (colD st.columns (st.current_column + 1)).width -
                (colD st.columns i).index ≤ st.terminal_size.x)) with
          | some i =>
            ({ st with cur_pos := ⟨st.cur_pos.col + 1 - (i - st.offsets.col), st.cur_pos.row⟩,
                       offsets := ⟨i, st.offsets.row⟩ }, .rerender)
          | Option.none =>
            ({ st with cur_pos := ⟨st.cur_pos.col + 1, st.cur_pos.row⟩ }, .rerender)) := by
      rw [TableState.move_right, if_neg (by rw [TableState.current_column]; exact hne)]
      rfl
    rw [hbody]
    split
    · refine ⟨h1, h2, h3, h4, h5, h6, ?_⟩
      dsimp only
      omega
    · rcases hfind : (List.range' st.offsets.col
          (st.current_column + 1 + 1 - st.offsets.col)).find?
          (fun i => decide ((colD st.columns (st.current_column + 1)).index +
            (colD st.columns (st.current_column + 1)).width -
            (colD st.columns i).index ≤ st.terminal_size.x)) with _ | i
      · refine ⟨h1, h2, h3, h4, h5, h6, ?_⟩
        dsimp only
        omega
      · obtain ⟨hi1, hi2, _, _⟩ := find?_range'_eq_some.mp hfind
        rw [TableState.current_column] at hi2
        refine ⟨h1, h2, h3, h4, h5, ?_, ?_⟩ <;>
          · dsimp only
            omega

lemma inv_sortRows {st : TableState} (rows2 : List (List String))
    (hlen : rows2.length = st.rows.length) (h : StateInv st) :
    StateInv { st with rows := rows2 } := by
  simp only [StateInv, TableState.displayable_data_rows] at *
  omega

lemma inv_search {st : TableState} (pattern : String) (h : StateInv st) :
    StateInv (st.search pattern).1 := by
  obtain ⟨h1, h2, h3, h4, h5, h6, h7⟩ := h
  rw [TableState.displayable_data_rows] at h3 h4 h5
  rw [TableState.search]
  rcases hfind : (scanOrder st.current_row st.rows.length).find?
      (fun row => containsStr (cellD (st.rows.getD row []) st.current_column) pattern)
    with _ | r
  · exact ⟨h1, h2, h3, h4, h5, h6, h7⟩
  · have hmem := List.mem_of_find?_eq_some hfind
    have hr : r < st.rows.length := by
      refine mem_scanOrder_lt ?_ hmem
      rw [TableState.current_row]
      omega
    dsimp only
    rw [TableState.jump_to_row]
    split
    · simp only [StateInv, TableState.displayable_data_rows] at *
      omega
    · split
      · simp only [StateInv, TableState.displayable_data_rows] at *
        omega
      · simp only [StateInv, TableState.displayable_data_rows] at *
        omega

lemma applyOp_inv (op : Op) {st : TableState} (h : StateInv st) : StateInv (applyOp op st).1 := by
  cases op with
  | moveDown => exact inv_move_down h
  | moveUp => exact inv_move_up h
  | movePageDown => exact inv_move_page_down h
  | movePageUp => exact inv_move_page_up h
  | moveHome => exact inv_move_home h
  | moveEnd => exact inv_move_end h
  | moveLeft => exact inv_move_left h
  | moveRight => exact inv_move_right h
  | moveStartOfLine => exact inv_move_start_of_line h
  | moveEndOfLine => exact inv_move_end_of_line h
  | ascending col => exact inv_sortRows _ (List.length_mergeSort st.rows) h
  | descending col => exact inv_sortRows _ (List.length_mergeSort st.rows) h
  | search pattern => exact inv_search pattern h

lemma applyOps_inv (ops : List Op) {st : TableState} (h : StateInv st) :
    StateInv (applyOps ops st) := by
  induction ops generalizing st with
  | nil => exact h
  | cons op ops ih => exact ih (applyOp_inv op h)

/-- C1 counterexample: the invariant `cursorRow ≤ min(displayableDataRows,
len(rows))` fails for grids with fewer data rows than the window: on a grid
with one column, zero data rows and a terminal of height 3 (so C ≥ 1 and
charsTall ≥ 2 as the claim requires), a single movePageDown yields
cursorRow = 1 > min(2, 0) = 0. -/
theorem c1_counterexample :
    1 ≤ (TableState.new ["#"] [] ⟨3, 3⟩).columns.length ∧
    2 ≤ (TableState.new ["#"] [] ⟨3, 3⟩).terminal_size.y ∧
    ¬ ((applyOps [Op.movePageDown] (TableState.new ["#"] [] ⟨3, 3⟩)).cur_pos.row ≤
        min (applyOps [Op.movePageDown] (TableState.new ["#"] [] ⟨3, 3⟩)).displayable_data_rows
          (applyOps [Op.movePageDown] (TableState.new ["#"] [] ⟨3, 3⟩)).rows.length) := by
  decide

/-- C1 amended: for every grid with C ≥ 1 columns, terminal height ≥ 2, and
at least one full window of data rows (len(rows) ≥ displayableDataRows =
charsTall − 1), after every sequence of user operations from the initial
state the viewport invariants hold: rowOffset ≤ max(0, len(rows) −
displayableDataRows), cursorRow ≤ min(displayableDataRows, len(rows)),
colOffset < C and cursorCol < C − colOffset (all quantities are naturals,
so the lower bounds 0 ≤ _ hold by construction). -/
theorem c1_invariants (header : List String) (rows : List (List String)) (W H : Nat)
    (ops : List Op) (hC : 1 ≤ header.length) (hH : 2 ≤ H) (hR : H - 1 ≤ rows.length) :
    (applyOps ops (TableState.new header rows ⟨W, H⟩)).offsets.row ≤
      max 0 ((applyOps ops (TableState.new header rows ⟨W, H⟩)).rows.length -
        (applyOps ops (TableState.new header rows ⟨W, H⟩)).displayable_data_rows) ∧
    (applyOps ops (TableState.new header rows ⟨W, H⟩)).cur_pos.row ≤
      min (applyOps ops (TableState.new header rows ⟨W, H⟩)).displayable_data_rows
        (applyOps ops (TableState.new header rows ⟨W, H⟩)).rows.length ∧
    (applyOps ops (TableState.new header rows ⟨W, H⟩)).offsets.col <
      (applyOps ops (TableState.new header rows ⟨W, H⟩)).columns.length ∧
    (applyOps ops (TableState.new header rows ⟨W, H⟩)).cur_pos.col <
      (applyOps ops (TableState.new header rows ⟨W, H⟩)).columns.length -
        (applyOps ops (TableState.new header rows ⟨W, H⟩)).offsets.col := by
  have hinv0 : StateInv (TableState.new header rows ⟨W, H⟩) := by
    have hcols : (TableState.new header rows ⟨W, H⟩).columns.length = header.length := by
      have h1 : (TableState.new header rows ⟨W, H⟩).columns =
          colsFromWidths (compute_col_widths (header :: rows) 2 W) 0 := rfl
      rw [h1, colsFromWidths_length, compute_col_widths_length]
    have hpos : 0 < (TableState.new header rows ⟨W, H⟩).columns.length := by
      rw [hcols]
      omega
    exact ⟨hH, hpos, hR, Nat.zero_le _, Nat.zero_le _, hpos, hpos⟩
  have hinv := applyOps_inv ops hinv0
  obtain ⟨h1, h2, h3, h4, h5, h6, h7⟩ := hinv
  refine ⟨?_, ?_, ?_, ?_⟩ <;> omega

/-- Witness for C1 amended at a concrete grid and operation sequence. -/
theorem c1_invariants_witness :
    (applyOps [Op.movePageDown, Op.moveRight]
        (TableState.new ["#", "a"] [["1", "x"], ["2", "y"]] ⟨9, 3⟩)).offsets.col <
      (applyOps [Op.movePageDown, Op.moveRight]
        (TableState.new ["#", "a"] [["1", "x"], ["2", "y"]] ⟨9, 3⟩)).columns.length :=
  (c1_invariants ["#", "a"] [["1", "x"], ["2", "y"]] 9 3 [Op.movePageDown, Op.moveRight]
    (by decide) (by decide) (by decide)).2.2.1

end TV
